import Mathlib

set_option linter.unusedVariables false

/-!
Verification of the trello-export-parser repository.

Shallow embedding of `src/csv_parser.py` (class `TrelloCSVParser`) and
`src/markdown_formatter.py`.  A CSV row (a Python dict produced by
`csv.DictReader`) is modelled as an association list from column names to
string values with unique keys; `dict.get(k, d)` is `rowGetD` and
`dict.get(k)` (whose default is `None`) is `rowGet?`.  Python string
helpers (`strip`, `lower`, `split(',')`, `replace`) are modelled on the
character lists underlying `String`; they are restricted to the ASCII
whitespace/case range, which covers all data the claims quantify over.
-/

/-- A raw CSV row: mapping from column name to string value. -/
abbrev Row : Type := List (String × String)

/-- Characters of Python's `\s` class / `str.strip` default set (ASCII). -/
def isPySpace (c : Char) : Bool :=
  c == ' ' || c == '\t' || c == '\n' || c == '\r' || c == '\x0b' || c == '\x0c'

/-- Python `str.strip()`: remove leading and trailing whitespace. -/
def pyStrip (s : String) : String :=
  ⟨((s.data.dropWhile isPySpace).reverse.dropWhile isPySpace).reverse⟩

/-- Python `str.lower()` (ASCII range). -/
def pyLower (s : String) : String :=
  ⟨s.data.map Char.toLower⟩

/-- Python `s.split(',')`: split at every comma, keeping empty pieces;
`''.split(',') == ['']`. -/
def pySplitComma : List Char → List (List Char)
  | [] => [[]]
  | c :: rest =>
    match pySplitComma rest with
    | [] => [[c]]
    | t :: ts => if c == ',' then [] :: t :: ts else (c :: t) :: ts

/-- `s.split(',')` on `String`. -/
def pySplitCommaS (s : String) : List String :=
  (pySplitComma s.data).map (fun l => ⟨l⟩)

/-- Python `dict.get k` (default `None`). -/
def rowGet? (r : Row) (k : String) : Option String :=
  (r.find? (fun p => p.1 == k)).map (fun p => p.2)

/-- Python `dict.get k d`. -/
def rowGetD (r : Row) (k : String) (d : String) : String :=
  (rowGet? r k).getD d

/-- Whole-list match against the anchored regex `\s*\([^)]*\)\s*$` used by
`extract_team_name`.  The pattern is deterministic: maximal leading
whitespace, a literal `(`, the characters up to the first `)`, the `)`,
and only whitespace afterwards. -/
def tailMatch (l : List Char) : Bool :=
  match l.dropWhile isPySpace with
  | '(' :: rest =>
    match rest.dropWhile (fun c => c != ')') with
    | ')' :: rest2 => rest2.all isPySpace
    | _ => false
  | _ => false

/-- `re.sub(r'\s*\([^)]*\)\s*$', '', ·)`: delete everything from the
leftmost position whose suffix matches the anchored pattern (at most one
non-overlapping match exists because of the `$` anchor). -/
def subAnchored : List Char → List Char
  | [] => []
  | c :: rest => if tailMatch (c :: rest) then [] else c :: subAnchored rest

/-- `TrelloCSVParser.extract_team_name`: remove a trailing parenthesized
color group and strip. -/
def extract_team_name (label : String) : String :=
  pyStrip ⟨subAnchored label.data⟩

/-- `TrelloCSVParser.get_team_label`: first label distinct from the
reportable label and not blank, color-stripped; else `"Uncategorized"`. -/
def get_team_label (labels : List String) (reportable_label : String) : String :=
  match labels with
  | [] => "Uncategorized"
  | label :: rest =>
    if label ≠ reportable_label ∧ pyStrip label ≠ "" then extract_team_name label
    else get_team_label rest reportable_label

/-- `TrelloCSVParser.filter_cards`, with the parsed rows passed explicitly
(the Python method reads them from `self.cards`). -/
def filter_cards (cards : List Row) (list_name label_filter : String)
    (include_archived : Bool) : List Row :=
  match cards with
  | [] => []
  | card :: rest =>
    if rowGet? card "List Name" ≠ some list_name then
      filter_cards rest list_name label_filter include_archived
    else if include_archived = false ∧ pyLower (rowGetD card "Archived" "") = "true" then
      filter_cards rest list_name label_filter include_archived
    else if label_filter ∈ (pySplitCommaS (rowGetD card "Labels" "")).map pyStrip then
      card :: filter_cards rest list_name label_filter include_archived
    else
      filter_cards rest list_name label_filter include_archived

/-- The dictionary built per card by `extract_card_info`. -/
structure CardInfo where
  id : String
  name : String
  description : String
  url : String
  labels : List String
  team : String
  due_date : Option String
  list_name : String
  board_name : String
deriving DecidableEq

/-- `TrelloCSVParser.extract_card_info`. -/
def extract_card_info (cards : List Row) (reportable_label : String) : List CardInfo :=
  cards.map (fun card =>
    let labels := ((pySplitCommaS (rowGetD card "Labels" "")).map pyStrip).filter
      (fun l => l != "")
    { id := rowGetD card "Card ID" ""
      name := rowGetD card "Card Name" ""
      description := rowGetD card "Card Description" ""
      url := rowGetD card "Card URL" ""
      labels := labels
      team := get_team_label labels reportable_label
      due_date := rowGet? card "Due Date"
      list_name := rowGetD card "List Name" ""
      board_name := rowGetD card "Board Name" "" })

/-- `TrelloCSVParser.parse_csv`: the `try` block is modelled by an
`Except`-valued read result (the `open`/`csv.DictReader` combination
either yields the parsed rows or raises).  The handler returns `[]` and
prints a warning; the emitted messages are the second component. -/
def parse_csv (readResult : Except String (List Row)) : List Row × List String :=
  match readResult with
  | Except.ok rows => (rows, [])
  | Except.error e => ([], ["Error parsing CSV file: " ++ e])

/-- Fuel-driven core of Python `str.replace`: leftmost, non-overlapping
replacement of every occurrence.  The fuel (initially the string length)
strictly bounds the recursion; it never runs out for a nonempty pattern. -/
def replaceAux (pat rep : List Char) : Nat → List Char → List Char
  | _, [] => []
  | 0, s => s
  | n + 1, c :: rest =>
    if pat.isPrefixOf (c :: rest) then
      rep ++ replaceAux pat rep n (List.drop pat.length (c :: rest))
    else
      c :: replaceAux pat rep n rest

/-- Python `s.replace(pat, rep)` for a nonempty pattern (the source only
uses the nonempty patterns `":question:"` and `":warning:"`). -/
def pyReplace (s pat rep : String) : String :=
  if pat = "" then s
  else ⟨replaceAux pat.data rep.data s.data.length s.data⟩

/-- `markdown_formatter.replace_emoji_strings`: the `replacements` dict in
its (insertion-order preserving) iteration order. -/
def replace_emoji_strings (text : String) : String :=
  [(":question:", "(needs clarification)"), (":warning:", "(important note)")].foldl
    (fun t p => pyReplace t p.1 p.2) text

/-- `markdown_formatter.format_card_as_markdown`. -/
def format_card_as_markdown (card : CardInfo) : String :=
  let card_name := replace_emoji_strings card.name
  let markdown := "### " ++ card_name ++ "\n\n"
  let markdown :=
    if card.description ≠ "" then
      markdown ++ replace_emoji_strings card.description ++ "\n\n"
    else
      markdown ++ "*No description provided*\n\n"
  markdown ++ "\n"

/-- One `teams[team].append(card)` step on the insertion-ordered dict
(`defaultdict(list)`), modelled as an association list: append to the
entry of `team`, or append a new entry at the end. -/
def insertCard (groups : List (String × List CardInfo)) (team : String)
    (card : CardInfo) : List (String × List CardInfo) :=
  match groups with
  | [] => [(team, [card])]
  | (t, cs) :: rest =>
    if t = team then (t, cs ++ [card]) :: rest
    else (t, cs) :: insertCard rest team card

/-- `markdown_formatter.group_cards_by_team`.  Extracted cards always carry
the `team` key, so `card.get('team', 'Uncategorized')` is `card.team`. -/
def group_cards_by_team (cards : List CardInfo) : List (String × List CardInfo) :=
  cards.foldl (fun gs c => insertCard gs c.team c) []

/-- Dict lookup `teams[team]` on the association list (the formatter only
indexes with keys of the dict, so the `none` branch is never taken). -/
def groupsGetD (groups : List (String × List CardInfo)) (team : String) : List CardInfo :=
  match groups.find? (fun p => p.1 == team) with
  | some p => p.2
  | none => []

/-- Code-point lexicographic comparison of character lists, the order
Python uses to compare strings. -/
def listLe : List Char → List Char → Bool
  | [], _ => true
  | _ :: _, [] => false
  | a :: as, b :: bs =>
    if a.toNat < b.toNat then true
    else if b.toNat < a.toNat then false
    else listLe as bs

/-- Python's `<=` on strings (code-point lexicographic). -/
def pyStrLe (a b : String) : Bool :=
  listLe a.data b.data

/-- `markdown_formatter.get_ordered_teams`.  Python's stable `sorted` is
modelled by insertion sort over the code-point order; on the
duplicate-free key list the two agree. -/
def get_ordered_teams (teams : List (String × List CardInfo)) : List String :=
  let keys := teams.map Prod.fst
  (if keys.contains "TMM" then ["TMM"] else []) ++
    (if keys.contains "SRE" then ["SRE"] else []) ++
      List.insertionSort (fun a b => pyStrLe a b = true)
        (keys.filter (fun t => !(t == "TMM" || t == "SRE")))

/-- `markdown_formatter.format_cards_to_markdown`.  The wall clock read by
`datetime.now().strftime(...)` is passed in as `now`; the `title`
parameter is accepted and ignored exactly as in the source, which
hardcodes the heading. -/
def format_cards_to_markdown (cards : List CardInfo) (title : String)
    (include_metadata : Bool) (now : String) : String :=
  if cards.isEmpty then
    "# Transaction Management and Middleware\n\n*No cards found matching the criteria.*"
  else
    let markdown := "# Transaction Management and Middleware\n\n"
    let markdown :=
      if include_metadata then markdown ++ ("*Generated on: " ++ now ++ "*\n\n" ++ "\n")
      else markdown
    let teams := group_cards_by_team cards
    (get_ordered_teams teams).foldl
      (fun md team =>
        (groupsGetD teams team).foldl (fun m c => m ++ format_card_as_markdown c)
          (md ++ ("## " ++ team ++ "\n\n")))
      markdown

/-- Substring test (`pat in s` in Python), used to state the absence of a
metadata line. -/
def listContainsSub (pat : List Char) : List Char → Bool
  | [] => pat.isEmpty
  | c :: rest => pat.isPrefixOf (c :: rest) || listContainsSub pat rest

/-- `pat in s` on `String`. -/
def containsSub (s pat : String) : Bool :=
  listContainsSub pat.data s.data

/-- Row-keeping predicate of claim C2, written as the claim states it:
the list-name column holds exactly `list_name`, the row is not an
archived row being excluded, and `label_filter` is exactly one of the
comma-split, trimmed label tokens. -/
def keepSpec (r : Row) (list_name label_filter : String) (include_archived : Bool) : Bool :=
  decide (rowGet? r "List Name" = some list_name) &&
    (!decide (include_archived = false ∧ pyLower (rowGetD r "Archived" "") = "true")) &&
      decide (label_filter ∈ (pySplitCommaS (rowGetD r "Labels" "")).map pyStrip)

/-- Team derivation as claim C3 literally states it: the first label that
is non-empty (as a string) and not equal to the reportable label, with
its trailing parenthesized group stripped. -/
def team_of_claim (labels : List String) (rep : String) : String :=
  match labels.find? (fun l => decide (l ≠ "" ∧ l ≠ rep)) with
  | some l => extract_team_name l
  | none => "Uncategorized"

/-- Team derivation with C3's selection condition amended from "non-empty"
to "non-blank" (nonempty after trimming whitespace). -/
def team_of_amended (labels : List String) (rep : String) : String :=
  match labels.find? (fun l => decide (l ≠ rep ∧ pyStrip l ≠ "")) with
  | some l => extract_team_name l
  | none => "Uncategorized"

/-- The two emoji substitutions applied in the opposite of the source's
order, used to test claim C8's order-independence assertion. -/
def replace_emoji_strings_swapped (text : String) : String :=
  [(":warning:", "(important note)"), (":question:", "(needs clarification)")].foldl
    (fun t p => pyReplace t p.1 p.2) text

/-- A card whose only populated field is the team name. -/
def mkTeamCard (team : String) : CardInfo :=
  ⟨"", "", "", "", [], team, none, "", ""⟩

/-- The four-team card list of claim C4's concrete example. -/
def demoCards : List CardInfo :=
  [mkTeamCard "Zeta", mkTeamCard "TMM", mkTeamCard "SRE", mkTeamCard "Alpha"]

/-- The card produced by `extract_card_info` from a row whose only label
is `"(blue)"`; its team is the empty string. -/
def blueCard : CardInfo :=
  ⟨"", "", "", "", ["(blue)"], "", none, "", ""⟩

/-! ## Helper lemmas -/

theorem get_team_label_eq_empty {labels : List String} {rep : String}
    (h : get_team_label labels rep = "") :
    ∃ l ∈ labels, l ≠ rep ∧ extract_team_name l = "" := by
  induction labels with
  | nil => exact absurd h (by decide : ("Uncategorized" : String) ≠ "")
  | cons l rest ih =>
    simp only [get_team_label] at h
    by_cases hg : l ≠ rep ∧ pyStrip l ≠ ""
    · rw [if_pos hg] at h
      exact ⟨l, List.mem_cons_self l rest, hg.1, h⟩
    · rw [if_neg hg] at h
      obtain ⟨l', hl', h1, h2⟩ := ih h
      exact ⟨l', List.mem_cons_of_mem l hl', h1, h2⟩

theorem get_team_label_unfound {labels : List String} {rep : String}
    (h : ∀ l ∈ labels, ¬(l ≠ rep ∧ pyStrip l ≠ "")) :
    get_team_label labels rep = "Uncategorized" := by
  induction labels with
  | nil => rfl
  | cons l rest ih =>
    simp only [get_team_label]
    rw [if_neg (h l (List.mem_cons_self l rest))]
    exact ih (fun l' hl' => h l' (List.mem_cons_of_mem l hl'))

theorem rowGet?_cons (k v : String) (r : Row) (k2 : String) :
    rowGet? ((k, v) :: r) k2 = if k = k2 then some v else rowGet? r k2 := by
  by_cases h : k = k2
  · rw [if_pos h]
    simp only [rowGet?]
    rw [List.find?_cons_of_pos _ (by simp [h])]
    rfl
  · rw [if_neg h]
    simp only [rowGet?]
    rw [List.find?_cons_of_neg _ (by simp [h])]

/-- Evaluation of `filter_cards` on a single row: the row is kept exactly
when all three predicates pass. -/
theorem filter_cards_singleton (r : Row) (list_name label_filter : String)
    (include_archived : Bool) :
    filter_cards [r] list_name label_filter include_archived
      = if (rowGet? r "List Name" = some list_name
            ∧ ¬(include_archived = false ∧ pyLower (rowGetD r "Archived" "") = "true")
            ∧ label_filter ∈ (pySplitCommaS (rowGetD r "Labels" "")).map pyStrip)
        then [r] else [] := by
  by_cases h1 : rowGet? r "List Name" = some list_name
  · by_cases h2 : include_archived = false ∧ pyLower (rowGetD r "Archived" "") = "true"
    · simp only [filter_cards]
      rw [if_neg (not_not_intro h1), if_pos h2, if_neg (fun hc => hc.2.1 h2)]
    · by_cases h3 : label_filter ∈ (pySplitCommaS (rowGetD r "Labels" "")).map pyStrip
      · simp only [filter_cards]
        rw [if_neg (not_not_intro h1), if_neg h2, if_pos h3, if_pos ⟨h1, h2, h3⟩]
      · simp only [filter_cards]
        rw [if_neg (not_not_intro h1), if_neg h2, if_neg h3, if_neg (fun hc => h3 hc.2.2)]
  · simp only [filter_cards]
    rw [if_pos h1, if_neg (fun hc => h1 hc.1)]

theorem listLe_total (as bs : List Char) : listLe as bs = true ∨ listLe bs as = true := by
  induction as generalizing bs with
  | nil => exact Or.inl rfl
  | cons a as ih =>
    cases bs with
    | nil => exact Or.inr rfl
    | cons b bs =>
      rcases Nat.lt_trichotomy a.toNat b.toNat with h | h | h
      · exact Or.inl (by simp [listLe, h])
      · have h1 : ¬ a.toNat < b.toNat := by omega
        have h2 : ¬ b.toNat < a.toNat := by omega
        rcases ih bs with hh | hh
        · exact Or.inl (by simp [listLe, h1, h2, hh])
        · exact Or.inr (by simp [listLe, h1, h2, hh])
      · exact Or.inr (by simp [listLe, h])

theorem listLe_trans (as bs cs : List Char) (hab : listLe as bs = true)
    (hbc : listLe bs cs = true) : listLe as cs = true := by
  induction as generalizing bs cs with
  | nil => rfl
  | cons a as ih =>
    cases bs with
    | nil => exact absurd hab (by simp [listLe])
    | cons b bs =>
      cases cs with
      | nil => exact absurd hbc (by simp [listLe])
      | cons c cs =>
        simp only [listLe] at hab hbc ⊢
        by_cases h1 : a.toNat < b.toNat
        · by_cases h2 : b.toNat < c.toNat
          · have h3 : a.toNat < c.toNat := Nat.lt_trans h1 h2
            simp [h3]
          · by_cases h3 : c.toNat < b.toNat
            · rw [if_neg h2, if_pos h3] at hbc
              exact absurd hbc (by simp)
            · have heq : b.toNat = c.toNat := by omega
              have h4 : a.toNat < c.toNat := heq ▸ h1
              simp [h4]
        · by_cases h1' : b.toNat < a.toNat
          · rw [if_neg h1, if_pos h1'] at hab
            exact absurd hab (by simp)
          · have heq : a.toNat = b.toNat := by omega
            rw [if_neg h1, if_neg h1'] at hab
            by_cases h2 : b.toNat < c.toNat
            · have h4 : a.toNat < c.toNat := heq ▸ h2
              simp [h4]
            · by_cases h3 : c.toNat < b.toNat
              · rw [if_neg h2, if_pos h3] at hbc
                exact absurd hbc (by simp)
              · have g1 : ¬ a.toNat < c.toNat := by omega
                have g2 : ¬ c.toNat < a.toNat := by omega
                rw [if_neg h2, if_neg h3] at hbc
                rw [if_neg g1, if_neg g2]
                exact ih bs cs hab hbc

instance : IsTotal String (fun a b => pyStrLe a b = true) :=
  ⟨fun a b => listLe_total a.data b.data⟩

instance : IsTrans String (fun a b => pyStrLe a b = true) :=
  ⟨fun a b c => listLe_trans a.data b.data c.data⟩

theorem groupsGetD_insertCard_same (gs : List (String × List CardInfo)) (team : String)
    (card : CardInfo) :
    groupsGetD (insertCard gs team card) team = groupsGetD gs team ++ [card] := by
  induction gs with
  | nil =>
    simp only [insertCard, groupsGetD]
    rw [List.find?_cons_of_pos _ (by simp)]
    rfl
  | cons hd rest ih =>
    rcases hd with ⟨ht, hcs⟩
    simp only [insertCard]
    by_cases h : ht = team
    · rw [if_pos h]
      simp only [groupsGetD]
      rw [List.find?_cons_of_pos _ (by simp [h]), List.find?_cons_of_pos _ (by simp [h])]
    · rw [if_neg h]
      simp only [groupsGetD] at ih ⊢
      rw [List.find?_cons_of_neg _ (by simp [h]), List.find?_cons_of_neg _ (by simp [h])]
      exact ih

theorem groupsGetD_insertCard_other (gs : List (String × List CardInfo)) (team : String)
    (card : CardInfo) (t : String) (hne : t ≠ team) :
    groupsGetD (insertCard gs team card) t = groupsGetD gs t := by
  induction gs with
  | nil =>
    simp only [insertCard, groupsGetD]
    rw [List.find?_cons_of_neg _ (by simp [Ne.symm hne])]
  | cons hd rest ih =>
    rcases hd with ⟨ht, hcs⟩
    simp only [insertCard]
    by_cases h : ht = team
    · rw [if_pos h]
      have hnt : ht ≠ t := by rw [h]; exact Ne.symm hne
      simp only [groupsGetD]
      rw [List.find?_cons_of_neg _ (by simp [hnt]), List.find?_cons_of_neg _ (by simp [hnt])]
    · rw [if_neg h]
      by_cases h2 : ht = t
      · simp only [groupsGetD]
        rw [List.find?_cons_of_pos _ (by simp [h2]), List.find?_cons_of_pos _ (by simp [h2])]
      · simp only [groupsGetD] at ih ⊢
        rw [List.find?_cons_of_neg _ (by simp [h2]), List.find?_cons_of_neg _ (by simp [h2])]
        exact ih

theorem groupsGetD_foldl (cards : List CardInfo) :
    ∀ (gs : List (String × List CardInfo)) (t : String),
      groupsGetD (cards.foldl (fun g c => insertCard g c.team c) gs) t
        = groupsGetD gs t ++ cards.filter (fun c => decide (c.team = t)) := by
  induction cards with
  | nil => intro gs t; simp
  | cons c cs ih =>
    intro gs t
    simp only [List.foldl_cons, List.filter_cons]
    rw [ih]
    by_cases h : c.team = t
    · rw [decide_eq_true h, if_pos rfl, ← h, groupsGetD_insertCard_same]
      simp [List.append_assoc]
    · rw [decide_eq_false h, if_neg Bool.false_ne_true,
        groupsGetD_insertCard_other gs c.team c t (Ne.symm h)]

/-- Stable grouping: looking up a team in the grouped dict returns exactly
the cards of that team, in their original order. -/
theorem groupsGetD_group (cards : List CardInfo) (t : String) :
    groupsGetD (group_cards_by_team cards) t
      = cards.filter (fun c => decide (c.team = t)) := by
  have h0 : groupsGetD ([] : List (String × List CardInfo)) t = [] := rfl
  have h := groupsGetD_foldl cards [] t
  rw [h0, List.nil_append] at h
  exact h

theorem keys_insertCard (gs : List (String × List CardInfo)) (team : String)
    (card : CardInfo) :
    (insertCard gs team card).map Prod.fst
      = if (gs.map Prod.fst).contains team = true then gs.map Prod.fst
        else gs.map Prod.fst ++ [team] := by
  induction gs with
  | nil => rfl
  | cons hd rest ih =>
    rcases hd with ⟨ht, hcs⟩
    simp only [insertCard]
    by_cases h : ht = team
    · rw [if_pos h]
      simp only [List.map_cons]
      rw [if_pos (by simp [List.contains_cons, h])]
    · rw [if_neg h]
      simp only [List.map_cons]
      rw [ih]
      have hcc : ((ht :: rest.map Prod.fst).contains team)
          = ((rest.map Prod.fst).contains team) := by
        simp [List.contains_cons, Ne.symm h]
      rw [hcc]
      by_cases h2 : (rest.map Prod.fst).contains team = true
      · rw [if_pos h2, if_pos h2]
      · rw [if_neg h2, if_neg h2]
        rfl

theorem mem_keys_group (cards : List CardInfo) :
    ∀ (gs : List (String × List CardInfo)) (t : String),
      (t ∈ (cards.foldl (fun g c => insertCard g c.team c) gs).map Prod.fst)
        ↔ (t ∈ gs.map Prod.fst ∨ ∃ c ∈ cards, c.team = t) := by
  induction cards with
  | nil => intro gs t; simp
  | cons c cs ih =>
    intro gs t
    simp only [List.foldl_cons]
    rw [ih, keys_insertCard]
    by_cases h : (gs.map Prod.fst).contains c.team = true
    · rw [if_pos h]
      have hmem : c.team ∈ gs.map Prod.fst := by simpa using h
      constructor
      · rintro (hg | ⟨c', hc', ht⟩)
        · exact Or.inl hg
        · exact Or.inr ⟨c', List.mem_cons_of_mem c hc', ht⟩
      · rintro (hg | ⟨c', hc', ht⟩)
        · exact Or.inl hg
        · rcases List.mem_cons.mp hc' with rfl | hc''
          · exact Or.inl (ht ▸ hmem)
          · exact Or.inr ⟨c', hc'', ht⟩
    · rw [if_neg h]
      simp only [List.mem_append, List.mem_singleton]
      constructor
      · rintro ((hg | he) | ⟨c', hc', ht⟩)
        · exact Or.inl hg
        · exact Or.inr ⟨c, List.mem_cons_self c cs, he.symm⟩
        · exact Or.inr ⟨c', List.mem_cons_of_mem c hc', ht⟩
      · rintro (hg | ⟨c', hc', ht⟩)
        · exact Or.inl (Or.inl hg)
        · rcases List.mem_cons.mp hc' with rfl | hc''
          · exact Or.inl (Or.inr ht.symm)
          · exact Or.inr ⟨c', hc'', ht⟩

theorem mem_get_ordered_teams (gs : List (String × List CardInfo)) (t : String) :
    t ∈ get_ordered_teams gs ↔ t ∈ gs.map Prod.fst := by
  unfold get_ordered_teams
  simp only [List.mem_append, List.mem_insertionSort, List.mem_filter]
  constructor
  · rintro ((h | h) | h)
    · by_cases hc : (gs.map Prod.fst).contains "TMM" = true
      · rw [if_pos hc, List.mem_singleton] at h
        subst h
        simpa using hc
      · rw [if_neg hc] at h
        exact absurd h (List.not_mem_nil t)
    · by_cases hc : (gs.map Prod.fst).contains "SRE" = true
      · rw [if_pos hc, List.mem_singleton] at h
        subst h
        simpa using hc
      · rw [if_neg hc] at h
        exact absurd h (List.not_mem_nil t)
    · exact h.1
  · intro h
    by_cases h1 : t = "TMM"
    · refine Or.inl (Or.inl ?_)
      rw [if_pos (List.elem_eq_true_of_mem (h1 ▸ h))]
      exact List.mem_singleton.mpr h1
    · by_cases h2 : t = "SRE"
      · refine Or.inl (Or.inr ?_)
        rw [if_pos (List.elem_eq_true_of_mem (h2 ▸ h))]
        exact List.mem_singleton.mpr h2
      · exact Or.inr ⟨h, by simp [h1, h2]⟩

/-! ## Claim theorems -/

/-- Claim C2 (confirmed): `filter_cards` returns exactly the rows
satisfying the claim's three predicates, in their original input order. -/
theorem c2_filter_cards_exact (rows : List Row) (list_name label_filter : String)
    (include_archived : Bool) :
    filter_cards rows list_name label_filter include_archived
      = rows.filter (fun r => keepSpec r list_name label_filter include_archived) := by
  induction rows with
  | nil => rfl
  | cons card rest ih =>
    simp only [filter_cards, List.filter_cons]
    by_cases h1 : rowGet? card "List Name" = some list_name
    · by_cases h2 : include_archived = false
          ∧ pyLower (rowGetD card "Archived" "") = "true"
      · have hk : keepSpec card list_name label_filter include_archived = false := by
          simp only [keepSpec, decide_eq_true h2, Bool.not_true, Bool.and_false,
            Bool.false_and]
        rw [if_neg (not_not_intro h1), if_pos h2, hk, if_neg Bool.false_ne_true, ih]
      · by_cases h3 : label_filter
            ∈ (pySplitCommaS (rowGetD card "Labels" "")).map pyStrip
        · have hk : keepSpec card list_name label_filter include_archived = true := by
            simp only [keepSpec, decide_eq_true h1, decide_eq_true h3,
              decide_eq_false h2, Bool.not_false, Bool.true_and, Bool.and_true]
          rw [if_neg (not_not_intro h1), if_neg h2, if_pos h3, hk, if_pos rfl, ih]
        · have hk : keepSpec card list_name label_filter include_archived = false := by
            simp only [keepSpec, decide_eq_false h3, Bool.and_false]
          rw [if_neg (not_not_intro h1), if_neg h2, if_neg h3, hk,
            if_neg Bool.false_ne_true, ih]
    · have hk : keepSpec card list_name label_filter include_archived = false := by
        simp only [keepSpec, decide_eq_false h1, Bool.false_and]
      rw [if_pos h1, hk, if_neg Bool.false_ne_true, ih]

/-- Claim C5 (confirmed): a failing read degrades to no rows plus a
printed warning; `parse_csv` propagates no exception to its caller. -/
theorem c5_parse_csv_error_empty (e : String) :
    parse_csv (Except.error e) = ([], ["Error parsing CSV file: " ++ e]) := rfl

/-- Claim C6 (confirmed): the empty card list renders to exactly the fixed
fallback document, which contains no generation-timestamp metadata line
even when `include_metadata` is true. -/
theorem c6_empty_render_fallback (title : String) (include_metadata : Bool) (now : String) :
    format_cards_to_markdown [] title include_metadata now
        = "# Transaction Management and Middleware\n\n*No cards found matching the criteria.*"
      ∧ containsSub
          "# Transaction Management and Middleware\n\n*No cards found matching the criteria.*"
          "*Generated on: " = false :=
  ⟨rfl, by decide⟩

/-- Claim C9 (confirmed): with `include_metadata = false` the rendered
markdown does not depend on the clock value, hence repeated calls on the
same cards and title agree. -/
theorem c9_render_deterministic (cards : List CardInfo) (title now1 now2 : String) :
    format_cards_to_markdown cards title false now1
      = format_cards_to_markdown cards title false now2 := rfl

/-- Claim C10 (confirmed): a missing or empty `Labels` column splits into
the single empty token, so with `label_filter = ""` the row is kept when
the list-name and archived predicates pass. -/
theorem c10_empty_labels_kept (r : Row) (list_name : String) (include_archived : Bool)
    (hlab : rowGetD r "Labels" "" = "")
    (hln : rowGet? r "List Name" = some list_name)
    (ha : ¬(include_archived = false ∧ pyLower (rowGetD r "Archived" "") = "true")) :
    (pySplitCommaS (rowGetD r "Labels" "")).map pyStrip = [""]
      ∧ filter_cards [r] list_name "" include_archived = [r] := by
  have hmem : ("" : String) ∈ (pySplitCommaS ("" : String)).map pyStrip := by decide
  constructor
  · rw [hlab]; rfl
  · simp [filter_cards, hln, ha, hlab, hmem]

/-- Witness for C10 at a concrete row with no `Labels` column. -/
theorem c10_empty_labels_witness :
    (pySplitCommaS (rowGetD [("List Name", "L")] "Labels" "")).map pyStrip = [""]
      ∧ filter_cards [[("List Name", "L")]] "L" "" false = [[("List Name", "L")]] :=
  c10_empty_labels_kept [("List Name", "L")] "L" false (by decide) (by decide) (by decide)

/-- Claim C8 counterexample: the two substitutions are not
order-independent; on `":question:warning:"` (where the two patterns
overlap on the shared colon) the source's order and the swapped order
produce different strings. -/
theorem c8_order_dependence_counterexample :
    replace_emoji_strings ":question:warning:" = "(needs clarification)warning:"
      ∧ replace_emoji_strings_swapped ":question:warning:" = ":question(important note)"
      ∧ replace_emoji_strings ":question:warning:"
          ≠ replace_emoji_strings_swapped ":question:warning:" := by
  refine ⟨by decide, by decide, by decide⟩

/-- Claim C8 (amended): substitution is applied in the fixed source order
(`:question:` first, then `:warning:`), to both the name and the
description, and the claim's concrete round-trip holds. -/
theorem c8_substitution_amended (s : String) (card : CardInfo) :
    replace_emoji_strings s
        = pyReplace (pyReplace s ":question:" "(needs clarification)")
            ":warning:" "(important note)"
      ∧ format_card_as_markdown card
          = "### " ++ replace_emoji_strings card.name ++ "\n\n"
              ++ (if card.description ≠ "" then
                    replace_emoji_strings card.description ++ "\n\n"
                  else "*No description provided*\n\n")
              ++ "\n"
      ∧ format_card_as_markdown (CardInfo.mk "" "Fix :question: now" "" "" [] "TMM" none "" "")
          = "### Fix (needs clarification) now\n\n*No description provided*\n\n\n" := by
  refine ⟨rfl, ?_, by decide⟩
  by_cases h : card.description = ""
  · simp [format_card_as_markdown, h, String.append_assoc]
  · simp [format_card_as_markdown, h, String.append_assoc]

/-- Claim C1 counterexample: a card extracted from a row whose only label
is `"(blue)"` carries the empty team name, because the color-stripping
regex deletes the whole label. -/
theorem c1_empty_team_counterexample :
    (extract_card_info [[("Labels", "(blue)")]] "Reportable (black_dark)").map
      (fun c => c.team) = [""] := by decide

/-- Claim C1 (amended): an extracted card's team is empty only when some
label other than the reportable one strips to the empty string; when every
label equals the reportable label the team is the literal (non-empty)
`"Uncategorized"`. -/
theorem c1_team_default_amended (cards : List Row) (reportable_label : String)
    (c : CardInfo) (hc : c ∈ extract_card_info cards reportable_label) :
    (c.team = "" → ∃ l ∈ c.labels, l ≠ reportable_label ∧ extract_team_name l = "")
      ∧ ((∀ l ∈ c.labels, l = reportable_label) → c.team = "Uncategorized") := by
  obtain ⟨row, hrow, rfl⟩ := List.mem_map.mp hc
  constructor
  · intro h
    exact get_team_label_eq_empty h
  · intro h
    exact get_team_label_unfound (fun l hl hcon => hcon.1 (h l hl))

/-- Witness for C1's amended theorem at the `"(blue)"` row. -/
theorem c1_team_default_witness :
    ∃ l ∈ blueCard.labels, l ≠ "Reportable (black_dark)" ∧ extract_team_name l = "" :=
  (c1_team_default_amended [[("Labels", "(blue)")]] "Reportable (black_dark)"
    blueCard (by decide)).1 (by decide)

/-- Claim C3 counterexample: on the blank label list `["  "]` the claim's
literal reading ("non-empty" label) yields the stripped value `""`, but
the code skips blank labels and returns `"Uncategorized"`. -/
theorem c3_blank_label_counterexample :
    team_of_claim ["  "] "x" = "" ∧ get_team_label ["  "] "x" = "Uncategorized"
      ∧ team_of_claim ["  "] "x" ≠ get_team_label ["  "] "x" := by
  refine ⟨by decide, by decide, by decide⟩

/-- Claim C3 (amended): team derivation picks the first label that is
non-blank (not merely non-empty) and distinct from the reportable label,
strips its trailing parenthesized group and trims; `"Uncategorized"`
otherwise — including the claim's two concrete examples. -/
theorem c3_team_derivation_amended (labels : List String) (rep : String) :
    get_team_label labels rep = team_of_amended labels rep
      ∧ get_team_label [] rep = "Uncategorized"
      ∧ get_team_label ["Reportable (black_dark)", "SRE (green)"] "Reportable (black_dark)"
          = "SRE" := by
  refine ⟨?_, rfl, by decide⟩
  induction labels with
  | nil => rfl
  | cons l rest ih =>
    by_cases hg : l ≠ rep ∧ pyStrip l ≠ ""
    · simp only [get_team_label, team_of_amended, if_pos hg]
      rw [List.find?_cons_of_pos _ (by simpa using hg)]
    · simp only [get_team_label, team_of_amended, if_neg hg] at ih ⊢
      rw [List.find?_cons_of_neg _ (by simpa using hg)]
      exact ih

/-- Claim C7 counterexample: a row with no `List Name` column is always
dropped, while a row whose `List Name` column holds the empty string is
kept when `list_name = ""` — so the missing column does not behave as the
empty string. -/
theorem c7_missing_list_name_counterexample :
    filter_cards [([] : Row)] "" "" false = []
      ∧ filter_cards [[("List Name", "")]] "" "" false = [[("List Name", "")]] :=
  ⟨by decide, by decide⟩

/-- Claim C7 (amended): filtering and extraction are total — every row
yields exactly one card, a missing `Due Date` is stored as the absent
marker, a singleton filter either keeps or drops its row, and missing
`Archived`/`Labels` columns behave as the empty string; but a missing
`List Name` column always drops the row (it equals no `list_name`
string), which coincides with empty-string behaviour only for a
non-empty `list_name`. -/
theorem c7_missing_columns_amended (r : Row) (list_name label_filter : String)
    (include_archived : Bool) (reportable_label : String) :
    (extract_card_info [r] reportable_label).length = 1
      ∧ (rowGet? r "Due Date" = none →
          (extract_card_info [r] reportable_label).map (fun c => c.due_date) = [none])
      ∧ (filter_cards [r] list_name label_filter include_archived = [r]
          ∨ filter_cards [r] list_name label_filter include_archived = [])
      ∧ (rowGet? r "Archived" = none →
          (filter_cards [r] list_name label_filter include_archived).length
            = (filter_cards [("Archived", "") :: r]
                list_name label_filter include_archived).length)
      ∧ (rowGet? r "Labels" = none →
          (filter_cards [r] list_name label_filter include_archived).length
            = (filter_cards [("Labels", "") :: r]
                list_name label_filter include_archived).length)
      ∧ (rowGet? r "List Name" = none →
          filter_cards [r] list_name label_filter include_archived = []) := by
  refine ⟨by simp [extract_card_info], ?_, ?_, ?_, ?_, ?_⟩
  · intro h
    simp [extract_card_info, h]
  · rw [filter_cards_singleton]
    exact ite_eq_or_eq _ _ _
  · intro h
    have e1 : rowGetD r "Archived" "" = "" := by
      simp only [rowGetD]; rw [h]; rfl
    have e2 : rowGetD (("Archived", "") :: r) "Archived" "" = "" := by
      simp only [rowGetD]; rw [rowGet?_cons, if_pos rfl]; rfl
    have e3 : rowGet? (("Archived", "") :: r) "List Name" = rowGet? r "List Name" := by
      rw [rowGet?_cons, if_neg (by decide)]
    have e4 : rowGetD (("Archived", "") :: r) "Labels" "" = rowGetD r "Labels" "" := by
      simp only [rowGetD]; rw [rowGet?_cons, if_neg (by decide)]
    rw [filter_cards_singleton, filter_cards_singleton, e1, e2, e3, e4]
    simp [apply_ite List.length]
  · intro h
    have e1 : rowGetD r "Labels" "" = "" := by
      simp only [rowGetD]; rw [h]; rfl
    have e2 : rowGetD (("Labels", "") :: r) "Labels" "" = "" := by
      simp only [rowGetD]; rw [rowGet?_cons, if_pos rfl]; rfl
    have e3 : rowGet? (("Labels", "") :: r) "List Name" = rowGet? r "List Name" := by
      rw [rowGet?_cons, if_neg (by decide)]
    have e4 : rowGetD (("Labels", "") :: r) "Archived" "" = rowGetD r "Archived" "" := by
      simp only [rowGetD]; rw [rowGet?_cons, if_neg (by decide)]
    rw [filter_cards_singleton, filter_cards_singleton, e1, e2, e3, e4]
    simp [apply_ite List.length]
  · intro h
    rw [filter_cards_singleton]
    apply if_neg
    rintro ⟨h1, -⟩
    rw [h] at h1
    exact Option.noConfusion h1

/-- Witness for C7's amended theorem at a row with no columns at all. -/
theorem c7_missing_columns_witness :
    (extract_card_info [([] : Row)] "").length = 1
      ∧ (extract_card_info [([] : Row)] "").map (fun c => c.due_date) = [none]
      ∧ (filter_cards [([] : Row)] "x" "" false).length
          = (filter_cards [[("Archived", "")]] "x" "" false).length
      ∧ (filter_cards [([] : Row)] "x" "" false).length
          = (filter_cards [[("Labels", "")]] "x" "" false).length
      ∧ filter_cards [([] : Row)] "x" "" false = [] :=
  ⟨(c7_missing_columns_amended [] "x" "" false "").1,
   (c7_missing_columns_amended [] "x" "" false "").2.1 rfl,
   (c7_missing_columns_amended [] "x" "" false "").2.2.2.1 rfl,
   (c7_missing_columns_amended [] "x" "" false "").2.2.2.2.1 rfl,
   (c7_missing_columns_amended [] "x" "" false "").2.2.2.2.2 rfl⟩

/-- Claim C4 (confirmed): grouping is stable (a team's section holds its
cards in original filtered order), the rendered section order contains
exactly the teams present, and it is `"TMM"` first if present, then
`"SRE"` if present, then the remaining teams sorted ascending in the
code-point lexicographic order; on teams Zeta/TMM/SRE/Alpha the order is
exactly TMM, SRE, Alpha, Zeta. -/
theorem c4_team_order_grouping (cards : List CardInfo) (h : cards ≠ []) :
    (∀ t, groupsGetD (group_cards_by_team cards) t
        = cards.filter (fun c => decide (c.team = t)))
      ∧ (∀ t, t ∈ get_ordered_teams (group_cards_by_team cards)
          ↔ ∃ c ∈ cards, c.team = t)
      ∧ (∃ rest, get_ordered_teams (group_cards_by_team cards)
            = (if ((group_cards_by_team cards).map Prod.fst).contains "TMM"
                then ["TMM"] else [])
              ++ (if ((group_cards_by_team cards).map Prod.fst).contains "SRE"
                  then ["SRE"] else [])
              ++ rest
          ∧ List.Sorted (fun a b => pyStrLe a b = true) rest
          ∧ ∀ t ∈ rest, t ≠ "TMM" ∧ t ≠ "SRE")
      ∧ get_ordered_teams (group_cards_by_team demoCards) = ["TMM", "SRE", "Alpha", "Zeta"] := by
  refine ⟨groupsGetD_group cards, ?_, ?_, by decide⟩
  · intro t
    rw [mem_get_ordered_teams]
    have := mem_keys_group cards [] t
    simpa using this
  · refine ⟨List.insertionSort (fun a b => pyStrLe a b = true)
      (((group_cards_by_team cards).map Prod.fst).filter
        (fun t => !(t == "TMM" || t == "SRE"))), rfl,
      List.sorted_insertionSort (fun a b => pyStrLe a b = true) _, ?_⟩
    intro t ht
    rw [List.mem_insertionSort, List.mem_filter] at ht
    have := ht.2
    constructor
    · intro he; subst he; simp at this
    · intro he; subst he; simp at this

/-- Witness for C4 at the concrete four-team card list. -/
theorem c4_team_order_witness :
    get_ordered_teams (group_cards_by_team demoCards) = ["TMM", "SRE", "Alpha", "Zeta"] :=
  (c4_team_order_grouping demoCards (by decide)).2.2.2
